import Mathlib

set_option maxHeartbeats 1000000

/-!
Shallow embedding of the Sidetree core and proofs of the specification claims.

The DID identifier resolver is embedded from src/lib/core/versions/latest/Did.ts.
Strings are Lean strings and the JavaScript string operations are embedded as
character-list functions.  The external collaborators of Did.ts (the Encoder and
Multihash primitives, the creation-operation parser, and the WHATWG URL machinery)
are not part of the repository; they appear as black-box parameters or as
definitions modelled from the spec, as marked below.

The DocumentComposer implementation is absent from the sources (only its test file
is present), so the document composer definitions are modelled from the spec.
-/

/-- Characters of the Base64URL alphabet. -/
def isB64Char (c : Char) : Bool :=
  c.isAlphanum || c == '-' || c == '_'

/-- Characters allowed in a URL scheme after the first letter. -/
def isSchemeChar (c : Char) : Bool :=
  c.isAlphanum || c == '+' || c == '-' || c == '.'

/-- Split a character list at the first occurrence of the marker character, returning
the parts before and after it, or none when the marker is absent. -/
def splitFirst (c : Char) : List Char → Option (List Char × List Char)
  | [] => none
  | x :: xs => if x = c then some ([], xs) else (splitFirst c xs).map fun p => (x :: p.1, p.2)

/-- Segments of a character list separated by the given character, empty segments kept,
matching JavaScript String.prototype.split with a single-character separator. -/
def segmentsOn (c : Char) : List Char → List (List Char)
  | [] => [[]]
  | x :: xs =>
    if x = c then [] :: segmentsOn c xs
    else match segmentsOn c xs with
      | [] => [[x]]
      | s :: ss => (x :: s) :: ss

/-- JavaScript String.prototype.indexOf for a single character, none when absent. -/
def charIndexOf (s : String) (c : Char) : Option Nat :=
  (splitFirst c s.data).map fun p => p.1.length

/-- JavaScript String.prototype.lastIndexOf for a single character, none when absent. -/
def charLastIndexOf (s : String) (c : Char) : Option Nat :=
  (splitFirst c s.data.reverse).map fun p => s.data.length - 1 - p.1.length

/-- JavaScript String.prototype.split with a single-character separator. -/
def jsSplit (s : String) (c : Char) : List String :=
  (segmentsOn c s.data).map String.mk

/-- JavaScript String.prototype.substring with two indices; the arguments are swapped
when given in reverse order, as in JavaScript. -/
def jsSubstring (s : String) (a b : Nat) : String :=
  if a ≤ b then ⟨(s.data.take b).drop a⟩ else ⟨(s.data.take a).drop b⟩

/-- JavaScript String.prototype.substring with one index. -/
def jsSubstringTail (s : String) (a : Nat) : String :=
  ⟨s.data.drop a⟩

/-- JavaScript String.prototype.startsWith. -/
def strStartsWith (s p : String) : Bool :=
  p.data.isPrefixOf s.data

/-- Modelled from the spec: acceptance by the WHATWG URL constructor invoked in
Did.getInitialStateFromDidString, which is external to the repository.  A DID string
parses as a URL when a colon is present and the part before the first colon is a
non-empty scheme: an initial letter followed by scheme characters. -/
def parsesAsUrl (s : String) : Bool :=
  match splitFirst ':' s.data with
  | none => false
  | some p => !p.1.isEmpty && (p.1.headD 'a').isAlpha && p.1.all isSchemeChar

/-- One query-parameter segment as a key/value pair, split at its first equals sign. -/
def parseParam (seg : List Char) : String × String :=
  match splitFirst '=' seg with
  | none => (⟨seg⟩, "")
  | some p => (⟨p.1⟩, ⟨p.2⟩)

/-- Modelled from the spec: the ordered query parameters exposed by URL.searchParams
(external to the repository): the part of the string after the first question mark,
split on ampersands, empty segments skipped, each segment split at its first equals
sign.  Percent-decoding is not modelled; the DID grammar's Base64URL payloads need
none. -/
def searchParamsOf (s : String) : List (String × String) :=
  match splitFirst '?' s.data with
  | none => []
  | some p => ((segmentsOn '&' p.2).filter fun seg => !seg.isEmpty).map parseParam

/-- Error codes from ErrorCode.ts that the embedded functions can produce. -/
inductive ErrorCode where
  | DidIncorrectPrefix
  | DidInvalidMethodName
  | DidNoUniqueSuffix
  | DidInvalidDidString
  | DidLongFormNoInitialStateFound
  | DidLongFormOnlyOneQueryParamAllowed
  | DidLongFormOnlyInitialStateParameterIsAllowed
  | DidInitialStateValueContainsNoDot
  | DidInitialStateValueContainsMoreThanOneDot
  | DidInitialStateValueDoesNotContainTwoParts
  | DidUniqueSuffixFromInitialStateMismatch
  | DocumentComposerIdNotUsingBase64UrlCharacterSet
  | DocumentComposerIdTooLong
  | DocumentComposerPublicKeyIdDuplicated
  | DocumentComposerPublicKeyTypeMissingOrUnknown
  | DocumentComposerOperationKeyTypeNotEs256k
  | DocumentComposerPublicKeyUsageMissingOrUnknown
  | DocumentComposerPublicKeyUsageExceedsMaxLength
  | DocumentComposerPublicKeyInvalidUsage
  | DocumentComposerPatchServiceEndpointTypeTooLong
  | DocumentComposerPatchServiceEndpointServiceEndpointTooLong
  | DocumentComposerPatchServiceEndpointServiceEndpointNotValidUrl
  | CreateOperationParseFailed (code : Nat)
  deriving DecidableEq

/-- The creation-operation abstraction returned by the external CreateOperation parser:
the fields of interest to Did.ts. -/
structure CreateOperation where
  encodedSuffixData : String
  encodedDelta : String
  deriving DecidableEq

/-- External collaborators of Did.ts, outside this repository, passed as black boxes:
the Encoder primitives encode and decodeAsBuffer, the Multihash primitives hash and
getHashAlgorithmCode, and CreateOperation.parseObject applied to the synthetic
creation request built from the suffix-data and delta strings. -/
structure Primitives where
  encode : List Nat → String
  decodeAsBuffer : String → List Nat
  hash : List Nat → Nat → List Nat
  getHashAlgorithmCode : List Nat → Nat
  parseObject : String → String → Except ErrorCode CreateOperation

/-- The Did value built by Did.ts. -/
structure Did where
  isShortForm : Bool
  didMethodName : String
  uniqueSuffix : String
  createOperation : Option CreateOperation
  shortForm : String
  deriving DecidableEq

/-- The constant initialStateParameterSuffix of Did.ts. -/
def Did.initialStateParameterSuffix : String :=
  "initial-state"

/-- The private Did constructor of Did.ts: prefix check, short/long form detection via
the first question mark, unique-suffix extraction, and empty-suffix rejection. -/
def Did.construct (did : String) (didMethodName : String) : Except ErrorCode Did :=
  if strStartsWith did didMethodName = false then .error .DidIncorrectPrefix
  else
    match charIndexOf did '?' with
    | none =>
      if (jsSubstringTail did didMethodName.data.length).data.length = 0 then
        .error .DidNoUniqueSuffix
      else .ok { isShortForm := true, didMethodName := didMethodName,
                 uniqueSuffix := jsSubstringTail did didMethodName.data.length,
                 createOperation := none,
                 shortForm := didMethodName ++ jsSubstringTail did didMethodName.data.length }
    | some indexOfQuestionMarkChar =>
      if (jsSubstring did didMethodName.data.length indexOfQuestionMarkChar).data.length = 0 then
        .error .DidNoUniqueSuffix
      else .ok { isShortForm := false, didMethodName := didMethodName,
                 uniqueSuffix := jsSubstring did didMethodName.data.length indexOfQuestionMarkChar,
                 createOperation := none,
                 shortForm := didMethodName ++
                   jsSubstring did didMethodName.data.length indexOfQuestionMarkChar }

/-- Did.getInitialStateFromDidString of Did.ts: URL parse, then the one-and-only query
parameter must have the key built from the method name and initialStateParameterSuffix.
The second-parameter counter check of the source fires only after the key check of the
first visited parameter, which this embedding mirrors. -/
def Did.getInitialStateFromDidString (didString : String) (methodName : String) :
    Except ErrorCode String :=
  if parsesAsUrl didString = false then .error .DidInvalidDidString
  else
    match searchParamsOf didString with
    | [] => .error .DidLongFormNoInitialStateFound
    | (key, value) :: rest =>
      if key ≠ "-" ++ methodName ++ "-" ++ Did.initialStateParameterSuffix then
        .error .DidLongFormOnlyInitialStateParameterIsAllowed
      else if rest.length ≠ 0 then .error .DidLongFormOnlyOneQueryParamAllowed
      else .ok value

/-- Did.constructCreateOperationFromInitialState of Did.ts: the dot checks on the
initial-state value followed by the call to the external creation-operation parser on
the two split parts. -/
def Did.constructCreateOperationFromInitialState (P : Primitives) (initialState : String) :
    Except ErrorCode CreateOperation :=
  match charIndexOf initialState '.' with
  | none => .error .DidInitialStateValueContainsNoDot
  | some firstIndexOfDot =>
    if charLastIndexOf initialState '.' ≠ some firstIndexOfDot then
      .error .DidInitialStateValueContainsMoreThanOneDot
    else if firstIndexOfDot = initialState.data.length - 1 then
      .error .DidInitialStateValueDoesNotContainTwoParts
    else
      P.parseObject ((jsSplit initialState '.').getD 0 "")
        ((jsSplit initialState '.').getD 1 "")

/-- Did.create of Did.ts: method-name extraction from the expected DID method base,
construction, and for long-form DIDs the extraction of the initial state, the parse of
the embedded creation operation, and the unique-suffix consistency check using the hash
algorithm of the short-form suffix. -/
def Did.create (P : Primitives) (didString : String) (expectedDidPre : String) :
    Except ErrorCode Did :=
  if (jsSplit expectedDidPre ':').length < 2 then .error .DidInvalidMethodName
  else
    match Did.construct didString expectedDidPre with
    | .error e => .error e
    | .ok did =>
      if did.isShortForm then .ok did
      else
        match Did.getInitialStateFromDidString didString
            ((jsSplit expectedDidPre ':').getD 1 "") with
        | .error e => .error e
        | .ok initialState =>
          match Did.constructCreateOperationFromInitialState P initialState with
          | .error e => .error e
          | .ok createOperation =>
            if P.encode (P.hash (P.decodeAsBuffer createOperation.encodedSuffixData)
                  (P.getHashAlgorithmCode (P.decodeAsBuffer did.uniqueSuffix)))
                ≠ did.uniqueSuffix then
              .error .DidUniqueSuffixFromInitialStateMismatch
            else .ok { did with createOperation := some createOperation }

deriving instance DecidableEq for Except

/-- Concrete primitives used to exercise the embedding: encoding is the identity on
character codes, hashing is the identity, and the parser accepts every payload. -/
def testPrims : Primitives where
  encode l := ⟨l.map fun n => Char.ofNat n⟩
  decodeAsBuffer s := s.data.map Char.toNat
  hash l _ := l
  getHashAlgorithmCode _ := 18
  parseObject sdata delta := Except.ok ⟨sdata, delta⟩

/-- Modelled from the spec: the DocumentComposer implementation is absent from the
sources, only its test file is present.  Public key of a DID document per spec
section 3, with the key material opaque. -/
structure PublicKeyModel where
  id : String
  type : String
  jwk : String
  usage : List String
  deriving DecidableEq

/-- Modelled from the spec: service endpoint of a DID document per spec section 3. -/
structure ServiceEndpointModel where
  id : String
  type : String
  serviceEndpoint : String
  deriving DecidableEq

/-- Modelled from the spec: a DID document, where absence of either collection is
valid, per spec section 3. -/
structure DocumentModel where
  publicKeys : Option (List PublicKeyModel)
  serviceEndpoints : Option (List ServiceEndpointModel)
  deriving DecidableEq

/-- Modelled from the spec: the resolved state for a suffix per spec section 3, with
the recovery key opaque. -/
structure DidState where
  document : DocumentModel
  lastOperationTransactionNumber : Nat
  nextRecoveryCommitmentHash : Option String
  nextUpdateCommitmentHash : Option String
  recoveryKey : Option String
  deriving DecidableEq

/-- Modelled from the spec: the externally rendered form of a public key, with the id
prefixed by a hash sign, an empty controller, and the key material as publicKeyJwk. -/
structure ExternalKey where
  id : String
  controller : String
  type : String
  publicKeyJwk : String
  deriving DecidableEq

/-- Modelled from the spec: an entry of the authentication array, either a bare
id-reference to a publicKey entry or a full embedded key object. -/
inductive AuthEntry where
  | ref (id : String)
  | obj (key : ExternalKey)
  deriving DecidableEq

/-- Modelled from the spec: the externally published DID document with its id set to
the full DID string; the constant context identifiers are left implicit. -/
structure DidDocument where
  id : String
  publicKey : List ExternalKey
  authentication : List AuthEntry
  service : Option (List ServiceEndpointModel)
  deriving DecidableEq

/-- Modelled from the spec: the method metadata of a resolution result. -/
structure MethodMetadata where
  operationPublicKeys : List ExternalKey
  recoveryKey : Option String
  deriving DecidableEq

/-- Modelled from the spec: the resolution result, either the deactivation marker with
only a status field, or a context with the DID document and method metadata. -/
structure ResolutionResult where
  status : Option String
  context : Option String
  didDocument : Option DidDocument
  methodMetadata : Option MethodMetadata
  deriving DecidableEq

/-- Modelled from the spec: the external rendering of one public key. -/
def toExternalKey (k : PublicKeyModel) : ExternalKey :=
  { id := "#" ++ k.id, controller := "", type := k.type, publicKeyJwk := k.jwk }

/-- Modelled from the spec: DocumentComposer.transformToExternalDocument.  A state
without a next recovery commitment hash is deactivated and yields only the status
field.  Otherwise the public keys are partitioned by usage: keys with ops usage
populate the operation public keys of the method metadata, keys with general usage
populate the publicKey array, and keys with auth usage populate the authentication
array, as a bare id-reference when the key also has general usage and as a full
embedded object otherwise. -/
def DocumentComposer.transformToExternalDocument (didState : DidState) (did : String) :
    ResolutionResult :=
  match didState.nextRecoveryCommitmentHash with
  | none => { status := some "deactivated", context := none, didDocument := none,
              methodMetadata := none }
  | some _ =>
    let keys := didState.document.publicKeys.getD []
    let operationPublicKeys := (keys.filter fun k => k.usage.contains "ops").map toExternalKey
    let publicKey := (keys.filter fun k => k.usage.contains "general").map toExternalKey
    let authentication := (keys.filter fun k => k.usage.contains "auth").map fun k =>
      if k.usage.contains "general" then AuthEntry.ref ("#" ++ k.id)
      else AuthEntry.obj (toExternalKey k)
    { status := none
      context := some "https://www.w3.org/ns/did-resolution/v1"
      didDocument := some { id := did, publicKey := publicKey,
                            authentication := authentication,
                            service := didState.document.serviceEndpoints }
      methodMetadata := some { operationPublicKeys := operationPublicKeys,
                               recoveryKey := didState.recoveryKey } }

/-- Modelled from the spec: a patch as a tagged variant over the four actions. -/
inductive Patch where
  | addPublicKeys (publicKeys : List PublicKeyModel)
  | removePublicKeys (ids : List String)
  | addServiceEndpoints (serviceEndpoints : List ServiceEndpointModel)
  | removeServiceEndpoints (ids : List String)
  deriving DecidableEq

/-- Modelled from the spec: insertion of one incoming key into the key list of
add-public-keys.  When an existing key shares the incoming id it is replaced in place,
preserving its position; otherwise the incoming key is appended. -/
def DocumentComposer.addKeyToList (keys : List PublicKeyModel) (k : PublicKeyModel) :
    List PublicKeyModel :=
  if keys.any fun e => e.id == k.id then keys.map fun e => if e.id == k.id then k else e
  else keys ++ [k]

/-- Modelled from the spec: the add-public-keys application. -/
def DocumentComposer.addPublicKeys (document : DocumentModel) (ks : List PublicKeyModel) :
    DocumentModel :=
  { document with
    publicKeys := some (ks.foldl DocumentComposer.addKeyToList (document.publicKeys.getD [])) }

/-- Modelled from the spec: the remove-service-endpoints application, a no-op when the
document has no serviceEndpoints collection, otherwise a filter on the listed ids. -/
def DocumentComposer.removeServiceEndpoints (document : DocumentModel) (ids : List String) :
    DocumentModel :=
  match document.serviceEndpoints with
  | none => document
  | some ses =>
    { document with serviceEndpoints := some (ses.filter fun e => !ids.contains e.id) }

/-- Modelled from the spec: application of a single validated patch to a document,
pure and non-mutating. -/
def DocumentComposer.applyPatchToDidDocument (document : DocumentModel) : Patch → DocumentModel
  | .addPublicKeys ks => DocumentComposer.addPublicKeys document ks
  | .removePublicKeys ids =>
    { document with
      publicKeys := some ((document.publicKeys.getD []).filter fun k => !ids.contains k.id) }
  | .addServiceEndpoints ses =>
    { document with serviceEndpoints := some ((document.serviceEndpoints.getD []) ++ ses) }
  | .removeServiceEndpoints ids => DocumentComposer.removeServiceEndpoints document ids

/-- Modelled from the spec: DocumentComposer.applyPatches applies the patches strictly
in the order given. -/
def DocumentComposer.applyPatches (document : DocumentModel) (patches : List Patch) :
    DocumentModel :=
  patches.foldl DocumentComposer.applyPatchToDidDocument document

/-- Modelled from the spec: the protocol's ECDSA-over-secp256k1 key type. -/
def es256kType : String :=
  "EcdsaSecp256k1VerificationKey2019"

/-- Modelled from the spec: the enumerated set of recognized key types. -/
def allowedKeyTypes : List String :=
  [es256kType]

/-- Modelled from the spec: the allowed usage values. -/
def allowedUsages : List String :=
  ["ops", "general", "auth"]

/-- Modelled from the spec: DocumentComposer.validateId, the Base64URL character-set
check followed by the maximum-length check. -/
def DocumentComposer.validateId (id : String) : Except ErrorCode Unit :=
  if !id.data.all isB64Char then .error .DocumentComposerIdNotUsingBase64UrlCharacterSet
  else if id.data.length > 20 then .error .DocumentComposerIdTooLong
  else .ok ()

/-- Modelled from the spec: per-key validation of the publicKeys collection in order,
carrying the set of ids already seen for the uniqueness check. -/
def DocumentComposer.validatePublicKeysAux :
    List PublicKeyModel → List String → Except ErrorCode Unit
  | [], _ => .ok ()
  | k :: rest, seen =>
    match DocumentComposer.validateId k.id with
    | .error e => .error e
    | .ok _ =>
      if seen.contains k.id then .error .DocumentComposerPublicKeyIdDuplicated
      else if k.usage.contains "ops" && k.type != es256kType then
        .error .DocumentComposerOperationKeyTypeNotEs256k
      else if !allowedKeyTypes.contains k.type then
        .error .DocumentComposerPublicKeyTypeMissingOrUnknown
      else if k.usage.length = 0 then .error .DocumentComposerPublicKeyUsageMissingOrUnknown
      else if k.usage.length > 3 then .error .DocumentComposerPublicKeyUsageExceedsMaxLength
      else if !k.usage.all fun u => allowedUsages.contains u then
        .error .DocumentComposerPublicKeyInvalidUsage
      else DocumentComposer.validatePublicKeysAux rest (k.id :: seen)

/-- Modelled from the spec: validation of the publicKeys collection. -/
def DocumentComposer.validatePublicKeys (keys : List PublicKeyModel) : Except ErrorCode Unit :=
  DocumentComposer.validatePublicKeysAux keys []

/-- Modelled from the spec: per-entry validation of the serviceEndpoints collection,
with fixed maximum lengths and a syntactic URL check on the endpoint. -/
def DocumentComposer.validateServiceEndpoints (ses : List ServiceEndpointModel) :
    Except ErrorCode Unit :=
  match ses with
  | [] => .ok ()
  | e :: rest =>
    match DocumentComposer.validateId e.id with
    | .error err => .error err
    | .ok _ =>
      if e.type.data.length > 30 then .error .DocumentComposerPatchServiceEndpointTypeTooLong
      else if e.serviceEndpoint.data.length > 100 then
        .error .DocumentComposerPatchServiceEndpointServiceEndpointTooLong
      else if !parsesAsUrl e.serviceEndpoint then
        .error .DocumentComposerPatchServiceEndpointServiceEndpointNotValidUrl
      else DocumentComposer.validateServiceEndpoints rest

/-- Modelled from the spec: DocumentComposer.validateDocument over the typed document
model, validating the publicKeys collection and then the serviceEndpoints
collection. -/
def DocumentComposer.validateDocument (document : DocumentModel) : Except ErrorCode Unit :=
  match DocumentComposer.validatePublicKeys (document.publicKeys.getD []) with
  | .error e => .error e
  | .ok _ => DocumentComposer.validateServiceEndpoints (document.serviceEndpoints.getD [])

/-- A document with two public keys sharing an id, mirroring the duplicated-id test of
the DocumentComposer test file. -/
def duplicateIdDocument : DocumentModel :=
  { publicKeys := some
      [ { id := "key1", type := es256kType, jwk := "anything", usage := ["general"] },
        { id := "key1", type := es256kType, jwk := "anything", usage := ["general"] } ],
    serviceEndpoints := none }

/-- A document that passes validation. -/
def okDocument : DocumentModel :=
  { publicKeys := some
      [ { id := "key1", type := es256kType, jwk := "anything", usage := ["general"] },
        { id := "key2", type := es256kType, jwk := "anything", usage := ["ops", "auth"] } ],
    serviceEndpoints := none }

/-! ## Helper lemmas about the string utilities -/

theorem dataAppend (a b : String) : (a ++ b).data = a.data ++ b.data :=
  rfl

theorem mkData (s : String) : (⟨s.data⟩ : String) = s :=
  rfl

theorem stringEqEmptyIff (s : String) : s = "" ↔ s.data = [] := by
  cases s with
  | mk l =>
    constructor
    · intro h
      exact congrArg String.data h
    · intro h
      exact congrArg String.mk h

theorem splitFirst_eq_none_iff (c : Char) (l : List Char) :
    splitFirst c l = none ↔ c ∉ l := by
  induction l with
  | nil => simp [splitFirst]
  | cons x xs ih =>
    by_cases hx : x = c
    · subst hx
      simp [splitFirst]
    · simp [splitFirst, hx, ih, Ne.symm hx]

theorem splitFirst_append_cons (c : Char) (a b : List Char) (h : c ∉ a) :
    splitFirst c (a ++ c :: b) = some (a, b) := by
  induction a with
  | nil => simp [splitFirst]
  | cons x xs ih =>
    have hx : x ≠ c := fun hxc => h (hxc ▸ List.mem_cons_self x xs)
    have hxs : c ∉ xs := fun hc => h (List.mem_cons_of_mem x hc)
    simp [splitFirst, hx, ih hxs]

theorem splitFirst_append_of_mem (c : Char) (a rest : List Char) (h : c ∈ a) :
    splitFirst c (a ++ rest) = (splitFirst c a).map fun p => (p.1, p.2 ++ rest) := by
  induction a with
  | nil => cases h
  | cons x xs ih =>
    by_cases hx : x = c
    · subst hx
      simp [splitFirst]
    · have hmem : c ∈ xs := by
        rcases List.mem_cons.mp h with h' | h'
        · exact absurd h'.symm hx
        · exact h'
      simp only [List.cons_append, splitFirst, if_neg hx, List.append_eq]
      rw [ih hmem]
      cases splitFirst c xs with
      | none => rfl
      | some r => rfl

theorem splitFirst_eq_some (c : Char) (l : List Char) :
    ∀ p q, splitFirst c l = some (p, q) → l = p ++ c :: q ∧ c ∉ p := by
  induction l with
  | nil =>
    intro p q h
    simp [splitFirst] at h
  | cons x xs ih =>
    intro p q h
    by_cases hx : x = c
    · subst hx
      simp [splitFirst] at h
      obtain ⟨h1, h2⟩ := h
      subst h1
      subst h2
      exact ⟨rfl, List.not_mem_nil x⟩
    · simp only [splitFirst, if_neg hx] at h
      cases hsp : splitFirst c xs with
      | none =>
        rw [hsp] at h
        simp at h
      | some r =>
        obtain ⟨r1, r2⟩ := r
        rw [hsp] at h
        simp only [Option.map_some', Option.some.injEq, Prod.mk.injEq] at h
        obtain ⟨h1, h2⟩ := h
        obtain ⟨hl, hnp⟩ := ih r1 r2 hsp
        subst h2
        constructor
        · rw [← h1, hl]
          rfl
        · rw [← h1]
          intro hc
          rcases List.mem_cons.mp hc with h' | h'
          · exact hx h'.symm
          · exact hnp h'

theorem splitFirst_isSome_of_mem (c : Char) (l : List Char) (h : c ∈ l) :
    ∃ p q, splitFirst c l = some (p, q) := by
  cases hsp : splitFirst c l with
  | none => exact absurd ((splitFirst_eq_none_iff c l).mp hsp) (by simp [h])
  | some r =>
    obtain ⟨r1, r2⟩ := r
    exact ⟨r1, r2, rfl⟩

theorem segmentsOn_not_mem (c : Char) (l : List Char) (h : c ∉ l) :
    segmentsOn c l = [l] := by
  induction l with
  | nil => rfl
  | cons x xs ih =>
    have hx : x ≠ c := fun hxc => h (hxc ▸ List.mem_cons_self x xs)
    have hxs : c ∉ xs := fun hc => h (List.mem_cons_of_mem x hc)
    simp [segmentsOn, hx, ih hxs]

theorem segmentsOn_append_cons (c : Char) (a b : List Char) (h : c ∉ a) :
    segmentsOn c (a ++ c :: b) = a :: segmentsOn c b := by
  induction a with
  | nil => simp [segmentsOn]
  | cons x xs ih =>
    have hx : x ≠ c := fun hxc => h (hxc ▸ List.mem_cons_self x xs)
    have hxs : c ∉ xs := fun hc => h (List.mem_cons_of_mem x hc)
    simp [segmentsOn, hx, ih hxs]

theorem isPrefixOf_append_self (a b : List Char) : a.isPrefixOf (a ++ b) = true := by
  induction a with
  | nil => simp [List.isPrefixOf]
  | cons x xs ih => simp [List.isPrefixOf, ih]

theorem take_len_append (a b : List Char) : (a ++ b).take a.length = a := by
  induction a with
  | nil => rfl
  | cons x xs ih => simp [ih]

theorem drop_len_append (a b : List Char) : (a ++ b).drop a.length = b := by
  induction a with
  | nil => rfl
  | cons x xs ih => simp [ih]

theorem all_not_mem {p : Char → Bool} {l : List Char} (h : l.all p = true) {c : Char}
    (hc : p c = false) : c ∉ l := by
  intro hmem
  have := (List.all_eq_true.mp h) c hmem
  rw [hc] at this
  cases this

theorem charIndexOf_eq_none_iff (s : String) (c : Char) :
    charIndexOf s c = none ↔ c ∉ s.data := by
  unfold charIndexOf
  rw [Option.map_eq_none']
  exact splitFirst_eq_none_iff c s.data

/-! ## Evaluation lemmas for the Did embedding -/

theorem stringExt (a b : String) (h : a.data = b.data) : a = b := by
  cases a
  cases b
  exact congrArg String.mk h

theorem jsSplit_not_mem (s : String) (c : Char) (h : c ∉ s.data) : jsSplit s c = [s] := by
  unfold jsSplit
  rw [segmentsOn_not_mem c s.data h]
  rfl

theorem jsSplit_didPre (m : String) (hm : ':' ∉ m.data) :
    jsSplit ("did:" ++ m ++ ":") ':' = ["did", m, ""] := by
  have hdata : ("did:" ++ m ++ ":").data = ['d','i','d'] ++ ':' :: (m.data ++ ':' :: []) := by
    simp only [dataAppend, List.append_assoc]
    rfl
  unfold jsSplit
  rw [hdata, segmentsOn_append_cons ':' _ _ (by decide), segmentsOn_append_cons ':' _ _ hm]
  rfl

theorem construct_longform_of_data (did pre S : String) (tail : List Char)
    (hdata : did.data = (pre.data ++ S.data) ++ '?' :: tail)
    (hq : '?' ∉ pre.data ++ S.data) (hSne : S ≠ "") :
    Did.construct did pre = Except.ok ⟨false, pre, S, none, pre ++ S⟩ := by
  have hsw : strStartsWith did pre = true := by
    unfold strStartsWith
    rw [hdata, List.append_assoc]
    exact isPrefixOf_append_self pre.data (S.data ++ '?' :: tail)
  have hidx : charIndexOf did '?' = some (pre.data.length + S.data.length) := by
    unfold charIndexOf
    rw [hdata, splitFirst_append_cons '?' _ _ hq]
    simp [List.length_append]
  have hsub : jsSubstring did pre.data.length (pre.data.length + S.data.length) = S := by
    unfold jsSubstring
    rw [if_pos (Nat.le_add_right _ _), hdata, ← List.length_append, take_len_append,
        drop_len_append]
  have hlen : ¬ S.data.length = 0 := fun h0 =>
    hSne ((stringEqEmptyIff S).mpr (List.length_eq_zero.mp h0))
  unfold Did.construct
  rw [hsw]
  rw [if_neg (by simp : ¬ (true = false))]
  rw [hidx]
  simp only [hsub]
  rw [if_neg hlen]

theorem parsesAsUrl_of_data (s : String) (tail : List Char)
    (h : s.data = 'd' :: 'i' :: 'd' :: ':' :: tail) : parsesAsUrl s = true := by
  unfold parsesAsUrl
  rw [show ('d' :: 'i' :: 'd' :: ':' :: tail : List Char) = ['d','i','d'] ++ ':' :: tail
      from rfl] at h
  rw [h, splitFirst_append_cons ':' _ _ (by decide)]
  rfl

theorem searchParams_of_data (s : String) (a q : List Char) (h : s.data = a ++ '?' :: q)
    (ha : '?' ∉ a) (hq : '&' ∉ q) (hqne : q ≠ []) :
    searchParamsOf s = [parseParam q] := by
  have hie : q.isEmpty = false := by
    cases q with
    | nil => exact absurd rfl hqne
    | cons x xs => rfl
  unfold searchParamsOf
  rw [h, splitFirst_append_cons '?' _ _ ha]
  show ((segmentsOn '&' q).filter fun seg => !seg.isEmpty).map parseParam = [parseParam q]
  rw [segmentsOn_not_mem '&' q hq]
  simp [hie]

theorem parseParam_eq (k v : List Char) (hk : '=' ∉ k) :
    parseParam (k ++ '=' :: v) = (⟨k⟩, ⟨v⟩) := by
  unfold parseParam
  rw [splitFirst_append_cons '=' _ _ hk]

theorem initialState_noDot (P : Primitives) (s : String) (h : '.' ∉ s.data) :
    Did.constructCreateOperationFromInitialState P s =
      Except.error ErrorCode.DidInitialStateValueContainsNoDot := by
  have hidx : charIndexOf s '.' = none := by
    unfold charIndexOf
    rw [(splitFirst_eq_none_iff '.' s.data).mpr h]
    rfl
  unfold Did.constructCreateOperationFromInitialState
  rw [hidx]

theorem initialState_firstIdx (s : String) (a b : List Char) (hs : s.data = a ++ '.' :: b)
    (ha : '.' ∉ a) : charIndexOf s '.' = some a.length := by
  unfold charIndexOf
  rw [hs, splitFirst_append_cons '.' _ _ ha]
  rfl

theorem initialState_trailingDot (P : Primitives) (s : String) (a : List Char)
    (hs : s.data = a ++ '.' :: []) (ha : '.' ∉ a) :
    Did.constructCreateOperationFromInitialState P s =
      Except.error ErrorCode.DidInitialStateValueDoesNotContainTwoParts := by
  have hfirst : charIndexOf s '.' = some a.length := initialState_firstIdx s a [] hs ha
  have hlast : charLastIndexOf s '.' = some a.length := by
    unfold charLastIndexOf
    rw [hs, show (a ++ '.' :: ([] : List Char)).reverse = ([] : List Char) ++ '.' :: a.reverse
        by simp]
    rw [splitFirst_append_cons '.' _ _ (List.not_mem_nil '.')]
    simp
  unfold Did.constructCreateOperationFromInitialState
  rw [hfirst]
  simp only [hlast]
  rw [if_neg (by simp)]
  rw [if_pos (by rw [hs]; simp)]

theorem initialState_twoDots (P : Primitives) (s : String) (a b : List Char)
    (hs : s.data = a ++ '.' :: b) (ha : '.' ∉ a) (hb : '.' ∈ b) :
    Did.constructCreateOperationFromInitialState P s =
      Except.error ErrorCode.DidInitialStateValueContainsMoreThanOneDot := by
  have hfirst : charIndexOf s '.' = some a.length := initialState_firstIdx s a b hs ha
  have hbr : '.' ∈ b.reverse := by simpa using hb
  obtain ⟨p, q, hpq⟩ := splitFirst_isSome_of_mem '.' b.reverse hbr
  obtain ⟨hbrev, hnp⟩ := splitFirst_eq_some '.' b.reverse p q hpq
  have hlast : charLastIndexOf s '.' = some ((a ++ '.' :: b).length - 1 - p.length) := by
    unfold charLastIndexOf
    rw [hs, show (a ++ '.' :: b).reverse = b.reverse ++ '.' :: a.reverse by simp,
        splitFirst_append_of_mem '.' b.reverse ('.' :: a.reverse) hbr, hpq]
    rfl
  have hpb : p.length + 1 ≤ b.length := by
    have hlen : b.reverse.length = (p ++ '.' :: q).length := by rw [hbrev]
    simp [List.length_append] at hlen
    omega
  unfold Did.constructCreateOperationFromInitialState
  rw [hfirst]
  simp only [hlast]
  rw [if_pos (by
    simp only [ne_eq, Option.some.injEq, List.length_append, List.length_cons]
    omega)]

theorem initialState_parse (P : Primitives) (s : String) (a b : List Char)
    (hs : s.data = a ++ '.' :: b) (ha : '.' ∉ a) (hb : '.' ∉ b) (hbne : b ≠ []) :
    Did.constructCreateOperationFromInitialState P s = P.parseObject ⟨a⟩ ⟨b⟩ := by
  have hfirst : charIndexOf s '.' = some a.length := initialState_firstIdx s a b hs ha
  have hbrn : '.' ∉ b.reverse := by simpa using hb
  have hlast : charLastIndexOf s '.' = some a.length := by
    unfold charLastIndexOf
    rw [hs, show (a ++ '.' :: b).reverse = b.reverse ++ '.' :: a.reverse by simp,
        splitFirst_append_cons '.' _ _ hbrn]
    simp only [Option.map_some', Option.some.injEq, List.length_append, List.length_cons,
      List.length_reverse]
    omega
  have hsplit : jsSplit s '.' = [⟨a⟩, ⟨b⟩] := by
    unfold jsSplit
    rw [hs, segmentsOn_append_cons '.' _ _ ha, segmentsOn_not_mem '.' b hb]
    rfl
  have hbpos : 0 < b.length := List.length_pos.mpr hbne
  unfold Did.constructCreateOperationFromInitialState
  rw [hfirst]
  simp only [hlast]
  rw [if_neg (by simp)]
  rw [if_neg (by
    rw [hs]
    simp only [List.length_append, List.length_cons]
    omega)]
  rw [hsplit]
  rfl

theorem construct_ok (did pre : String) (d : Did) (h : Did.construct did pre = Except.ok d) :
    d.uniqueSuffix ≠ "" ∧ d.didMethodName = pre ∧ d.shortForm = pre ++ d.uniqueSuffix ∧
    d.createOperation = none ∧ d.isShortForm = (charIndexOf did '?').isNone := by
  unfold Did.construct at h
  by_cases hsw : strStartsWith did pre = false
  · rw [if_pos hsw] at h
    exact Except.noConfusion h
  · rw [if_neg hsw] at h
    cases hq : charIndexOf did '?' with
    | none =>
      simp only [hq] at h
      by_cases hlen : (jsSubstringTail did pre.data.length).data.length = 0
      · rw [if_pos hlen] at h
        exact Except.noConfusion h
      · rw [if_neg hlen] at h
        injection h with h'
        subst h'
        refine ⟨?_, rfl, rfl, rfl, rfl⟩
        intro he
        exact hlen (by rw [(stringEqEmptyIff _).mp he]; rfl)
    | some idx =>
      simp only [hq] at h
      by_cases hlen : (jsSubstring did pre.data.length idx).data.length = 0
      · rw [if_pos hlen] at h
        exact Except.noConfusion h
      · rw [if_neg hlen] at h
        injection h with h'
        subst h'
        refine ⟨?_, rfl, rfl, rfl, rfl⟩
        intro he
        exact hlen (by rw [(stringEqEmptyIff _).mp he]; rfl)

theorem getInitialState_ok (didString methodName v : String)
    (hurl : parsesAsUrl didString = true)
    (hp : searchParamsOf didString =
      [("-" ++ methodName ++ "-" ++ Did.initialStateParameterSuffix, v)]) :
    Did.getInitialStateFromDidString didString methodName = Except.ok v := by
  unfold Did.getInitialStateFromDidString
  rw [if_neg (by rw [hurl]; simp)]
  simp only [hp]
  rw [if_neg (by simp)]
  rw [if_neg (by simp)]

theorem not_mem_append {c : Char} {a b : List Char} (ha : c ∉ a) (hb : c ∉ b) :
    c ∉ a ++ b := by
  intro h
  rcases List.mem_append.mp h with h | h
  · exact ha h
  · exact hb h

theorem not_mem_cons {c x : Char} {l : List Char} (h1 : c ≠ x) (h2 : c ∉ l) :
    c ∉ x :: l := by
  intro h
  rcases List.mem_cons.mp h with h | h
  · exact h1 h
  · exact h2 h

/-- C1: for a long-form DID whose short-form suffix equals the re-encoded hash of the
decoded suffix data under the algorithm embedded in the short-form suffix, Did.create
succeeds and returns a Did whose uniqueSuffix is that suffix; when the recomputed
candidate differs from the parsed short-form suffix, Did.create fails with
DidUniqueSuffixFromInitialStateMismatch. -/
theorem c1_longFormRoundTrip (P : Primitives) (m S sd d : String) (op : CreateOperation)
    (hm : m.data.all isB64Char = true) (hS : S.data.all isB64Char = true)
    (hsd : sd.data.all isB64Char = true) (hd : d.data.all isB64Char = true)
    (hSne : S ≠ "") (hdne : d ≠ "")
    (hparse : P.parseObject sd d = Except.ok op)
    (hop : op.encodedSuffixData = sd) :
    (P.encode (P.hash (P.decodeAsBuffer sd) (P.getHashAlgorithmCode (P.decodeAsBuffer S))) = S →
      Did.create P ("did:" ++ m ++ ":" ++ S ++ "?-" ++ m ++ "-initial-state=" ++ sd ++ "." ++ d)
          ("did:" ++ m ++ ":") =
        Except.ok ⟨false, "did:" ++ m ++ ":", S, some op, "did:" ++ m ++ ":" ++ S⟩) ∧
    (P.encode (P.hash (P.decodeAsBuffer sd) (P.getHashAlgorithmCode (P.decodeAsBuffer S))) ≠ S →
      Did.create P ("did:" ++ m ++ ":" ++ S ++ "?-" ++ m ++ "-initial-state=" ++ sd ++ "." ++ d)
          ("did:" ++ m ++ ":") =
        Except.error ErrorCode.DidUniqueSuffixFromInitialStateMismatch) := by
  have hmq : '?' ∉ m.data := all_not_mem hm (by decide)
  have hmc : ':' ∉ m.data := all_not_mem hm (by decide)
  have hma : '&' ∉ m.data := all_not_mem hm (by decide)
  have hme : '=' ∉ m.data := all_not_mem hm (by decide)
  have hSq : '?' ∉ S.data := all_not_mem hS (by decide)
  have hsda : '&' ∉ sd.data := all_not_mem hsd (by decide)
  have hsdd : '.' ∉ sd.data := all_not_mem hsd (by decide)
  have hda : '&' ∉ d.data := all_not_mem hd (by decide)
  have hdd : '.' ∉ d.data := all_not_mem hd (by decide)
  have hdne' : d.data ≠ [] := fun h0 => hdne ((stringEqEmptyIff d).mpr h0)
  have hpreq : '?' ∉ ("did:" ++ m ++ ":").data := by
    show '?' ∉ ("did:".data ++ m.data) ++ (":" : String).data
    exact not_mem_append (not_mem_append (by decide) hmq) (by decide)
  have hA : '?' ∉ ("did:" ++ m ++ ":").data ++ S.data := not_mem_append hpreq hSq
  have hKa : '&' ∉ '-' :: (m.data ++ ("-initial-state" : String).data) :=
    not_mem_cons (by decide) (not_mem_append hma (by decide))
  have hKe : '=' ∉ '-' :: (m.data ++ ("-initial-state" : String).data) :=
    not_mem_cons (by decide) (not_mem_append hme (by decide))
  have hVa : '&' ∉ sd.data ++ '.' :: d.data :=
    not_mem_append hsda (not_mem_cons (by decide) hda)
  have hQa : '&' ∉ ('-' :: (m.data ++ ("-initial-state" : String).data)) ++
      '=' :: (sd.data ++ '.' :: d.data) :=
    not_mem_append hKa (not_mem_cons (by decide) hVa)
  have hdata : ("did:" ++ m ++ ":" ++ S ++ "?-" ++ m ++ "-initial-state=" ++ sd ++ "." ++ d).data
      = (("did:" ++ m ++ ":").data ++ S.data) ++ '?' ::
        (('-' :: (m.data ++ ("-initial-state" : String).data)) ++
          '=' :: (sd.data ++ '.' :: d.data)) := by
    simp only [dataAppend, List.append_assoc, List.cons_append, List.nil_append]
  have hcons : Did.construct
      ("did:" ++ m ++ ":" ++ S ++ "?-" ++ m ++ "-initial-state=" ++ sd ++ "." ++ d)
      ("did:" ++ m ++ ":") =
      Except.ok ⟨false, "did:" ++ m ++ ":", S, none, "did:" ++ m ++ ":" ++ S⟩ :=
    construct_longform_of_data _ _ _ _ hdata hA hSne
  have hdata2 : ("did:" ++ m ++ ":" ++ S ++ "?-" ++ m ++ "-initial-state=" ++ sd ++ "." ++ d).data
      = 'd' :: 'i' :: 'd' :: ':' :: ((m.data ++ ':' :: S.data) ++ '?' ::
        (('-' :: (m.data ++ ("-initial-state" : String).data)) ++
          '=' :: (sd.data ++ '.' :: d.data))) := by
    rw [hdata]
    simp only [dataAppend, List.append_assoc, List.cons_append, List.nil_append]
  have hurl : parsesAsUrl
      ("did:" ++ m ++ ":" ++ S ++ "?-" ++ m ++ "-initial-state=" ++ sd ++ "." ++ d) = true :=
    parsesAsUrl_of_data _ _ hdata2
  have hQne : ('-' :: (m.data ++ ("-initial-state" : String).data)) ++
      '=' :: (sd.data ++ '.' :: d.data) ≠ [] := List.cons_ne_nil _ _
  have hkey : (⟨'-' :: (m.data ++ ("-initial-state" : String).data)⟩ : String) =
      "-" ++ m ++ "-" ++ Did.initialStateParameterSuffix := by
    apply stringExt
    simp only [dataAppend, List.append_assoc, List.cons_append, List.nil_append,
      Did.initialStateParameterSuffix]
  have hval : (⟨sd.data ++ '.' :: d.data⟩ : String) = sd ++ "." ++ d := by
    apply stringExt
    simp only [dataAppend, List.append_assoc, List.cons_append, List.nil_append]
  have hp : searchParamsOf
      ("did:" ++ m ++ ":" ++ S ++ "?-" ++ m ++ "-initial-state=" ++ sd ++ "." ++ d) =
      [("-" ++ m ++ "-" ++ Did.initialStateParameterSuffix, sd ++ "." ++ d)] := by
    rw [searchParams_of_data _ _ _ hdata hA hQa hQne, parseParam_eq _ _ hKe, hkey, hval]
  have hgis : Did.getInitialStateFromDidString
      ("did:" ++ m ++ ":" ++ S ++ "?-" ++ m ++ "-initial-state=" ++ sd ++ "." ++ d) m =
      Except.ok (sd ++ "." ++ d) := getInitialState_ok _ _ _ hurl hp
  have hvdata : (sd ++ "." ++ d).data = sd.data ++ '.' :: d.data := by
    simp only [dataAppend, List.append_assoc, List.cons_append, List.nil_append]
  have hstep : Did.constructCreateOperationFromInitialState P (sd ++ "." ++ d) =
      Except.ok op := by
    rw [initialState_parse P _ _ _ hvdata hsdd hdd hdne']
    show P.parseObject sd d = Except.ok op
    exact hparse
  have hmain : Did.create P
      ("did:" ++ m ++ ":" ++ S ++ "?-" ++ m ++ "-initial-state=" ++ sd ++ "." ++ d)
      ("did:" ++ m ++ ":") =
      if P.encode (P.hash (P.decodeAsBuffer sd)
          (P.getHashAlgorithmCode (P.decodeAsBuffer S))) ≠ S
      then Except.error ErrorCode.DidUniqueSuffixFromInitialStateMismatch
      else Except.ok ⟨false, "did:" ++ m ++ ":", S, some op, "did:" ++ m ++ ":" ++ S⟩ := by
    unfold Did.create
    rw [jsSplit_didPre m hmc]
    rw [if_neg (by simp)]
    rw [show ((["did", m, ""].getD 1 "") : String) = m from rfl]
    simp only [hcons]
    rw [if_neg (by simp)]
    simp only [hgis, hstep]
    rw [hop]
  constructor
  · intro hEq
    rw [hmain, if_neg (by simp [hEq])]
  · intro hNe
    rw [hmain, if_pos hNe]

theorem c1_longFormRoundTrip_witness :
    Did.create testPrims "did:m:abc?-m-initial-state=abc.z" "did:m:" =
      Except.ok ⟨false, "did:m:", "abc", some ⟨"abc", "z"⟩, "did:m:abc"⟩ :=
  (c1_longFormRoundTrip testPrims "m" "abc" "abc" "z" ⟨"abc", "z"⟩ (by decide) (by decide)
    (by decide) (by decide) (by decide) (by decide) rfl rfl).1 (by decide)

/-- C2 counterexample: an initial-state value with an empty suffix-data part is not
rejected with DidInitialStateValueDoesNotContainTwoParts; the creation-operation
parser is invoked on the empty suffix-data, and Did.create proceeds to the suffix
consistency check instead of failing with a dot-check error. -/
theorem c2_counterexample :
    Did.constructCreateOperationFromInitialState testPrims ".z" = Except.ok ⟨"", "z"⟩ ∧
    Did.create testPrims "did:m:abc?-m-initial-state=.z" "did:m:" =
      Except.error ErrorCode.DidUniqueSuffixFromInitialStateMismatch :=
  ⟨by decide, by decide⟩

/-- C2 amended: the initial-state dot checks of constructCreateOperationFromInitialState:
a value with no dot fails with DidInitialStateValueContainsNoDot, a value with more than
one dot fails with DidInitialStateValueContainsMoreThanOneDot, and a value whose single
dot is the last character, that is with an empty delta part, fails with
DidInitialStateValueDoesNotContainTwoParts, each before the creation-operation parser is
invoked; a value with exactly one dot and a non-empty delta part, in particular also one
with an empty suffix-data part, is split and handed to the creation-operation parser. -/
theorem c2_initialStateDotChecks (P : Primitives) (s : String) :
    ('.' ∉ s.data →
      Did.constructCreateOperationFromInitialState P s =
        Except.error ErrorCode.DidInitialStateValueContainsNoDot) ∧
    (∀ a b, s.data = a ++ '.' :: b → '.' ∉ a → '.' ∈ b →
      Did.constructCreateOperationFromInitialState P s =
        Except.error ErrorCode.DidInitialStateValueContainsMoreThanOneDot) ∧
    (∀ a, s.data = a ++ '.' :: [] → '.' ∉ a →
      Did.constructCreateOperationFromInitialState P s =
        Except.error ErrorCode.DidInitialStateValueDoesNotContainTwoParts) ∧
    (∀ a b, s.data = a ++ '.' :: b → '.' ∉ a → '.' ∉ b → b ≠ [] →
      Did.constructCreateOperationFromInitialState P s = P.parseObject ⟨a⟩ ⟨b⟩) :=
  ⟨fun h => initialState_noDot P s h,
   fun a b hs ha hb => initialState_twoDots P s a b hs ha hb,
   fun a hs ha => initialState_trailingDot P s a hs ha,
   fun a b hs ha hb hbne => initialState_parse P s a b hs ha hb hbne⟩

theorem c2_initialStateDotChecks_witness :
    Did.constructCreateOperationFromInitialState testPrims "a.b" =
      Except.ok ⟨"a", "b"⟩ := by
  have h := (c2_initialStateDotChecks testPrims "a.b").2.2.2 ['a'] ['b'] rfl
    (by decide) (by decide) (by decide)
  rw [h]
  rfl

/-- C3 counterexample: a long-form DID carrying two query parameters whose first key is
not the initial-state key fails with DidLongFormOnlyInitialStateParameterIsAllowed,
not with DidLongFormOnlyOneQueryParamAllowed as the claim states for every DID with
more than one query parameter. -/
theorem c3_counterexample :
    Did.create testPrims "did:m:abc?x=1&y=2" "did:m:" =
      Except.error ErrorCode.DidLongFormOnlyInitialStateParameterIsAllowed ∧
    ErrorCode.DidLongFormOnlyInitialStateParameterIsAllowed ≠
      ErrorCode.DidLongFormOnlyOneQueryParamAllowed :=
  ⟨by decide, by decide⟩

/-- C3 amended: for a DID string that parses as a URL, the query is accepted exactly
when it carries one parameter keyed by the initial-state key: no parameter fails with
DidLongFormNoInitialStateFound; a first parameter with any other key fails with
DidLongFormOnlyInitialStateParameterIsAllowed; a well-keyed first parameter followed by
at least one further parameter fails with DidLongFormOnlyOneQueryParamAllowed; a single
well-keyed parameter is accepted and its value returned. -/
theorem c3_queryParamValidation (didString methodName : String)
    (hurl : parsesAsUrl didString = true) :
    (searchParamsOf didString = [] →
      Did.getInitialStateFromDidString didString methodName =
        Except.error ErrorCode.DidLongFormNoInitialStateFound) ∧
    (∀ k v rest, searchParamsOf didString = (k, v) :: rest →
      (k ≠ "-" ++ methodName ++ "-" ++ Did.initialStateParameterSuffix →
        Did.getInitialStateFromDidString didString methodName =
          Except.error ErrorCode.DidLongFormOnlyInitialStateParameterIsAllowed) ∧
      (k = "-" ++ methodName ++ "-" ++ Did.initialStateParameterSuffix → rest ≠ [] →
        Did.getInitialStateFromDidString didString methodName =
          Except.error ErrorCode.DidLongFormOnlyOneQueryParamAllowed) ∧
      (k = "-" ++ methodName ++ "-" ++ Did.initialStateParameterSuffix → rest = [] →
        Did.getInitialStateFromDidString didString methodName = Except.ok v)) := by
  have hnotfalse : ¬ parsesAsUrl didString = false := by
    rw [hurl]
    simp
  constructor
  · intro hp
    unfold Did.getInitialStateFromDidString
    rw [if_neg hnotfalse]
    simp only [hp]
  · intro k v rest hp
    refine ⟨?_, ?_, ?_⟩
    · intro hk
      unfold Did.getInitialStateFromDidString
      rw [if_neg hnotfalse]
      simp only [hp]
      rw [if_pos hk]
    · intro hk hr
      unfold Did.getInitialStateFromDidString
      rw [if_neg hnotfalse]
      simp only [hp]
      rw [if_neg (by simp [hk])]
      rw [if_pos (fun h0 => hr (List.length_eq_zero.mp h0))]
    · intro hk hr
      unfold Did.getInitialStateFromDidString
      rw [if_neg hnotfalse]
      simp only [hp]
      rw [if_neg (by simp [hk])]
      rw [if_neg (by simp [hr])]

theorem c3_queryParamValidation_witness :
    Did.getInitialStateFromDidString "did:m:a?-m-initial-state=x.y" "m" =
      Except.ok "x.y" :=
  ((c3_queryParamValidation "did:m:a?-m-initial-state=x.y" "m" (by decide)).2
    "-m-initial-state" "x.y" [] (by decide)).2.2 (by decide) rfl

/-- C8: every Did successfully built by Did.create has a non-empty uniqueSuffix, its
shortForm is the didMethodName concatenated with the uniqueSuffix, and its
createOperation is populated exactly when the DID string contains a question mark,
that is when the DID is long-form. -/
theorem c8_didInvariants (P : Primitives) (didString expectedDidPre : String) (d : Did)
    (h : Did.create P didString expectedDidPre = Except.ok d) :
    d.uniqueSuffix ≠ "" ∧ d.shortForm = d.didMethodName ++ d.uniqueSuffix ∧
    (d.createOperation.isSome = true ↔ '?' ∈ didString.data) := by
  unfold Did.create at h
  by_cases hsplitlen : (jsSplit expectedDidPre ':').length < 2
  · rw [if_pos hsplitlen] at h
    exact Except.noConfusion h
  · rw [if_neg hsplitlen] at h
    cases hc : Did.construct didString expectedDidPre with
    | error e =>
      simp only [hc] at h
      exact Except.noConfusion h
    | ok d0 =>
      simp only [hc] at h
      obtain ⟨hne, hmn, hsf, hco, hshort⟩ := construct_ok didString expectedDidPre d0 hc
      by_cases hIsShort : d0.isShortForm = true
      · rw [if_pos hIsShort] at h
        injection h with h'
        subst h'
        have hnone : charIndexOf didString '?' = none := by
          rw [hshort] at hIsShort
          exact Option.isNone_iff_eq_none.mp hIsShort
        have hnm : '?' ∉ didString.data := (charIndexOf_eq_none_iff _ _).mp hnone
        refine ⟨hne, by rw [hsf, hmn], ?_⟩
        rw [hco]
        simp [hnm]
      · rw [if_neg hIsShort] at h
        cases hg : Did.getInitialStateFromDidString didString
            ((jsSplit expectedDidPre ':').getD 1 "") with
        | error e =>
          simp only [hg] at h
          exact Except.noConfusion h
        | ok initialState =>
          simp only [hg] at h
          cases hcc : Did.constructCreateOperationFromInitialState P initialState with
          | error e =>
            simp only [hcc] at h
            exact Except.noConfusion h
          | ok opr =>
            simp only [hcc] at h
            by_cases hcond : P.encode (P.hash (P.decodeAsBuffer opr.encodedSuffixData)
                (P.getHashAlgorithmCode (P.decodeAsBuffer d0.uniqueSuffix))) ≠ d0.uniqueSuffix
            · rw [if_pos hcond] at h
              exact Except.noConfusion h
            · rw [if_neg hcond] at h
              injection h with h'
              subst h'
              have hmem : '?' ∈ didString.data := by
                by_contra hnm
                have h0 : charIndexOf didString '?' = none :=
                  (charIndexOf_eq_none_iff _ _).mpr hnm
                rw [h0] at hshort
                exact hIsShort hshort
              exact ⟨hne, by rw [hsf, hmn], by simp [hmem]⟩

theorem c8_didInvariants_witness :
    (⟨true, "did:m:", "abc", none, "did:m:abc"⟩ : Did).uniqueSuffix ≠ "" ∧
    (⟨true, "did:m:", "abc", none, "did:m:abc"⟩ : Did).shortForm =
      (⟨true, "did:m:", "abc", none, "did:m:abc"⟩ : Did).didMethodName ++
        (⟨true, "did:m:", "abc", none, "did:m:abc"⟩ : Did).uniqueSuffix ∧
    ((⟨true, "did:m:", "abc", none, "did:m:abc"⟩ : Did).createOperation.isSome = true ↔
      '?' ∈ ("did:m:abc" : String).data) :=
  c8_didInvariants testPrims "did:m:abc" "did:m:" _ (by decide)

/-- C10: when the expected DID prefix contains no colon, Did.create fails with
DidInvalidMethodName regardless of the DID string supplied. -/
theorem c10_invalidMethodName (P : Primitives) (didString expectedDidPre : String)
    (h : ':' ∉ expectedDidPre.data) :
    Did.create P didString expectedDidPre =
      Except.error ErrorCode.DidInvalidMethodName := by
  unfold Did.create
  rw [jsSplit_not_mem expectedDidPre ':' h]
  rw [if_pos (by simp)]

theorem c10_invalidMethodName_witness :
    Did.create testPrims "did:m:abc" "nocolon" =
      Except.error ErrorCode.DidInvalidMethodName :=
  c10_invalidMethodName testPrims "did:m:abc" "nocolon" (by decide)

/-- C4: for every DidState without a next recovery commitment hash,
transformToExternalDocument returns exactly the deactivation marker, with no document,
keys or metadata exposed, regardless of the document content. -/
theorem c4_deactivatedShortCircuit (didState : DidState) (did : String)
    (hrec : didState.nextRecoveryCommitmentHash = none) :
    DocumentComposer.transformToExternalDocument didState did =
      { status := some "deactivated", context := none, didDocument := none,
        methodMetadata := none } := by
  unfold DocumentComposer.transformToExternalDocument
  simp only [hrec]

theorem c4_deactivatedShortCircuit_witness :
    DocumentComposer.transformToExternalDocument
      ⟨⟨some [⟨"anySigningKey", es256kType, "jwk1", ["ops", "general", "auth"]⟩,
              ⟨"authKey", es256kType, "jwk2", ["auth"]⟩], none⟩,
        123, none, some "commitHash", some "recoveryJwk"⟩ "did:method:suffix" =
      { status := some "deactivated", context := none, didDocument := none,
        methodMetadata := none } :=
  c4_deactivatedShortCircuit _ _ rfl

/-- C5: in the transformation of a non-deactivated state, a public key whose usage
holds both general and auth appears in the authentication array as the bare reference
to its publicKey entry, while a key with auth-only usage appears in authentication as
a full embedded object and appears nowhere in the publicKey array. -/
theorem c5_authenticationRendering (didState : DidState) (did : String) (hsh : String)
    (k : PublicKeyModel)
    (hrec : didState.nextRecoveryCommitmentHash = some hsh)
    (hk : k ∈ didState.document.publicKeys.getD [])
    (huniq : ∀ k' ∈ didState.document.publicKeys.getD [], k'.id = k.id → k' = k) :
    ∃ dd, (DocumentComposer.transformToExternalDocument didState did).didDocument = some dd ∧
      (k.usage.contains "general" = true → k.usage.contains "auth" = true →
        AuthEntry.ref ("#" ++ k.id) ∈ dd.authentication ∧ toExternalKey k ∈ dd.publicKey) ∧
      (k.usage.contains "auth" = true → k.usage.contains "general" = false →
        AuthEntry.obj (toExternalKey k) ∈ dd.authentication ∧
          toExternalKey k ∉ dd.publicKey) := by
  unfold DocumentComposer.transformToExternalDocument
  simp only [hrec]
  refine ⟨_, rfl, ?_, ?_⟩
  · intro hg ha
    constructor
    · exact List.mem_map.mpr ⟨k, List.mem_filter.mpr ⟨hk, by simpa using ha⟩,
        by rw [if_pos hg]⟩
    · exact List.mem_map.mpr ⟨k, List.mem_filter.mpr ⟨hk, by simpa using hg⟩, rfl⟩
  · intro ha hg
    constructor
    · exact List.mem_map.mpr ⟨k, List.mem_filter.mpr ⟨hk, by simpa using ha⟩,
        by rw [if_neg (by rw [hg]; simp)]⟩
    · intro hmem
      obtain ⟨k', hk', hek⟩ := List.mem_map.mp hmem
      obtain ⟨hk'mem, hk'g⟩ := List.mem_filter.mp hk'
      have h1 : "#" ++ k'.id = "#" ++ k.id := congrArg ExternalKey.id hek
      have h2 : ("#" : String).data ++ k'.id.data = ("#" : String).data ++ k.id.data := by
        have := congrArg String.data h1
        simpa [dataAppend] using this
      have hid : k'.id = k.id := stringExt _ _ (List.append_cancel_left h2)
      have hkk : k' = k := huniq k' hk'mem hid
      rw [hkk] at hk'g
      rw [hg] at hk'g
      cases hk'g

theorem c5_authenticationRendering_witness :
    ∃ dd, (DocumentComposer.transformToExternalDocument
      ⟨⟨some [⟨"anySigningKey", es256kType, "jwk1", ["ops", "general", "auth"]⟩,
              ⟨"authKey", es256kType, "jwk2", ["auth"]⟩], none⟩,
        123, some "commitHash", some "commitHash", some "recoveryJwk"⟩
        "did:method:suffix").didDocument = some dd ∧
      ((⟨"anySigningKey", es256kType, "jwk1", ["ops", "general", "auth"]⟩ :
          PublicKeyModel).usage.contains "general" = true →
        (⟨"anySigningKey", es256kType, "jwk1", ["ops", "general", "auth"]⟩ :
          PublicKeyModel).usage.contains "auth" = true →
        AuthEntry.ref ("#" ++ "anySigningKey") ∈ dd.authentication ∧
          toExternalKey ⟨"anySigningKey", es256kType, "jwk1", ["ops", "general", "auth"]⟩ ∈
            dd.publicKey) ∧
      ((⟨"anySigningKey", es256kType, "jwk1", ["ops", "general", "auth"]⟩ :
          PublicKeyModel).usage.contains "auth" = true →
        (⟨"anySigningKey", es256kType, "jwk1", ["ops", "general", "auth"]⟩ :
          PublicKeyModel).usage.contains "general" = false →
        AuthEntry.obj (toExternalKey
            ⟨"anySigningKey", es256kType, "jwk1", ["ops", "general", "auth"]⟩) ∈
          dd.authentication ∧
          toExternalKey ⟨"anySigningKey", es256kType, "jwk1", ["ops", "general", "auth"]⟩ ∉
            dd.publicKey) :=
  c5_authenticationRendering _ "did:method:suffix" "commitHash"
    ⟨"anySigningKey", es256kType, "jwk1", ["ops", "general", "auth"]⟩ rfl
    (by decide) (by decide)

/-- C7: remove-service-endpoints is the identity whenever nothing matches: with no
serviceEndpoints collection, or with none of the listed ids present, the document is
returned unchanged and no error is raised; when ids do match, exactly the matching
entries are filtered out and the others kept in order. -/
theorem c7_removeServiceEndpointsNoOpAndFilter (doc : DocumentModel) (ids : List String) :
    (doc.serviceEndpoints = none → DocumentComposer.removeServiceEndpoints doc ids = doc) ∧
    (∀ ses, doc.serviceEndpoints = some ses → (∀ e ∈ ses, ids.contains e.id = false) →
      DocumentComposer.removeServiceEndpoints doc ids = doc) ∧
    (∀ ses, doc.serviceEndpoints = some ses →
      DocumentComposer.removeServiceEndpoints doc ids =
        { doc with serviceEndpoints := some (ses.filter fun e => !ids.contains e.id) }) := by
  refine ⟨?_, ?_, ?_⟩
  · intro h
    unfold DocumentComposer.removeServiceEndpoints
    simp only [h]
  · intro ses h hno
    unfold DocumentComposer.removeServiceEndpoints
    simp only [h]
    have hfe : ses.filter (fun e => !ids.contains e.id) = ses := by
      apply List.filter_eq_self.mpr
      intro e he
      simpa using hno e he
    rw [hfe, ← h]
  · intro ses h
    unfold DocumentComposer.removeServiceEndpoints
    simp only [h]

theorem c7_removeServiceEndpointsNoOpAndFilter_witness :
    DocumentComposer.removeServiceEndpoints
      ⟨some [⟨"aRepeatingId", "someType", "any value", ["ops"]⟩],
       some [⟨"1", "t", "se"⟩, ⟨"2", "t", "se"⟩, ⟨"3", "t", "se"⟩, ⟨"4", "t", "se"⟩]⟩
      ["1", "3"] =
      ⟨some [⟨"aRepeatingId", "someType", "any value", ["ops"]⟩],
       some [⟨"2", "t", "se"⟩, ⟨"4", "t", "se"⟩]⟩ := by
  have h := (c7_removeServiceEndpointsNoOpAndFilter
    ⟨some [⟨"aRepeatingId", "someType", "any value", ["ops"]⟩],
     some [⟨"1", "t", "se"⟩, ⟨"2", "t", "se"⟩, ⟨"3", "t", "se"⟩, ⟨"4", "t", "se"⟩]⟩
    ["1", "3"]).2.2
    [⟨"1", "t", "se"⟩, ⟨"2", "t", "se"⟩, ⟨"3", "t", "se"⟩, ⟨"4", "t", "se"⟩] rfl
  rw [h]
  decide

theorem addKeyToList_foldl (ks : List PublicKeyModel)
    (hids : (ks.map PublicKeyModel.id).Nodup) :
    ∀ ex, ks.foldl DocumentComposer.addKeyToList ex =
      (ex.map fun e => ((ks.find? fun x => x.id == e.id).getD e)) ++
        (ks.filter fun x => !(ex.any fun e => e.id == x.id)) := by
  induction ks with
  | nil =>
    intro ex
    simp
  | cons k ks ih =>
    intro ex
    have hnotin : k.id ∉ ks.map PublicKeyModel.id := by
      have h0 := hids
      simp only [List.map_cons, List.nodup_cons] at h0
      exact h0.1
    have hndp : (ks.map PublicKeyModel.id).Nodup := by
      have h0 := hids
      simp only [List.map_cons, List.nodup_cons] at h0
      exact h0.2
    have hfindk : (ks.find? fun x => x.id == k.id) = none := by
      apply List.find?_eq_none.mpr
      intro x hx
      simp only [beq_iff_eq]
      intro heq
      exact hnotin (by rw [← heq]; exact List.mem_map_of_mem PublicKeyModel.id hx)
    have hksne : ∀ x ∈ ks, (k.id == x.id) = false := by
      intro x hx
      simp only [beq_eq_false_iff_ne, ne_eq]
      intro heq
      exact hnotin (by rw [heq]; exact List.mem_map_of_mem PublicKeyModel.id hx)
    have hany : ∀ x : PublicKeyModel,
        ((ex.map fun e => if e.id == k.id then k else e).any fun e => e.id == x.id) =
          (ex.any fun e => e.id == x.id) := by
      intro x
      induction ex with
      | nil => rfl
      | cons e es ihe =>
        simp only [List.map_cons, List.any_cons, ihe]
        by_cases hek : e.id = k.id
        · rw [if_pos (by simpa using hek), hek]
        · rw [if_neg (by simpa using hek)]
    rw [List.foldl_cons, ih hndp (DocumentComposer.addKeyToList ex k)]
    by_cases hmatch : (ex.any fun e => e.id == k.id) = true
    · unfold DocumentComposer.addKeyToList
      rw [if_pos hmatch]
      rw [List.map_map]
      congr 1
      · apply List.map_congr_left
        intro e he
        simp only [Function.comp_apply]
        by_cases hek : e.id = k.id
        · rw [if_pos (by simpa using hek)]
          rw [List.find?_cons_of_pos _ (by simpa using hek.symm)]
          simp [hfindk]
        · rw [if_neg (by simpa using hek)]
          rw [List.find?_cons_of_neg _ (by simpa using Ne.symm hek)]
      · rw [List.filter_cons_of_neg (by simp [hmatch])]
        apply List.filter_congr
        intro x hx
        rw [hany x]
    · unfold DocumentComposer.addKeyToList
      rw [if_neg hmatch]
      have hf : (ex.any fun e => e.id == k.id) = false := by
        simpa using hmatch
      have hexk : ∀ e ∈ ex, (e.id == k.id) = false := by
        intro e he
        have h0 := List.any_eq_false.mp hf e he
        simpa using h0
      rw [List.map_append]
      simp only [List.map_cons, List.map_nil]
      rw [show ((ks.find? fun x => x.id == k.id).getD k) = k by rw [hfindk]; rfl]
      rw [List.filter_cons_of_pos (by simp [hf])]
      have hmapeq : (ex.map fun e => (((k :: ks).find? fun x => x.id == e.id).getD e)) =
          ex.map fun e => ((ks.find? fun x => x.id == e.id).getD e) := by
        apply List.map_congr_left
        intro e he
        rw [List.find?_cons_of_neg _ (by
          have h0 := hexk e he
          simp only [beq_eq_false_iff_ne, ne_eq] at h0
          simpa using Ne.symm h0)]
      rw [hmapeq]
      have hfiltereq : (ks.filter fun x => !((ex ++ [k]).any fun e => e.id == x.id)) =
          ks.filter fun x => !(ex.any fun e => e.id == x.id) := by
        apply List.filter_congr
        intro x hx
        rw [List.any_append]
        simp only [List.any_cons, List.any_nil, Bool.or_false]
        rw [hksne x hx]
        simp
      rw [hfiltereq]
      simp [List.append_assoc]

/-- C6: applying an add-public-keys patch replaces each existing key whose id matches
an incoming key with the incoming key's full content while preserving its position in
the publicKeys sequence, and appends each incoming key whose id matches no existing
key, for incoming keys with pairwise distinct ids. -/
theorem c6_addPublicKeysReplaceOrAppend (doc : DocumentModel) (ks : List PublicKeyModel)
    (hids : (ks.map PublicKeyModel.id).Nodup) :
    DocumentComposer.applyPatches doc [Patch.addPublicKeys ks] =
      { doc with publicKeys := some (
          ((doc.publicKeys.getD []).map fun e => ((ks.find? fun x => x.id == e.id).getD e)) ++
          (ks.filter fun x => !((doc.publicKeys.getD []).any fun e => e.id == x.id))) } := by
  show DocumentComposer.addPublicKeys doc ks = _
  unfold DocumentComposer.addPublicKeys
  rw [addKeyToList_foldl ks hids (doc.publicKeys.getD [])]

theorem c6_addPublicKeysReplaceOrAppend_witness :
    DocumentComposer.applyPatches
      ⟨some [⟨"k", "T1", "jwk1", ["general"]⟩], none⟩
      [Patch.addPublicKeys [⟨"k", "T2", "jwk2", ["general"]⟩]] =
      ⟨some [⟨"k", "T2", "jwk2", ["general"]⟩], none⟩ := by
  have h := c6_addPublicKeysReplaceOrAppend ⟨some [⟨"k", "T1", "jwk1", ["general"]⟩], none⟩
    [⟨"k", "T2", "jwk2", ["general"]⟩] (by decide)
  rw [h]
  decide

theorem validatePublicKeysAux_nodup (keys : List PublicKeyModel) :
    ∀ seen, DocumentComposer.validatePublicKeysAux keys seen = Except.ok () →
      (keys.map PublicKeyModel.id).Nodup ∧
        ∀ i ∈ keys.map PublicKeyModel.id, seen.contains i = false := by
  induction keys with
  | nil =>
    intro seen h
    simp
  | cons k ks ih =>
    intro seen h
    unfold DocumentComposer.validatePublicKeysAux at h
    cases hv : DocumentComposer.validateId k.id with
    | error e =>
      simp only [hv] at h
      exact Except.noConfusion h
    | ok u =>
      simp only [hv] at h
      by_cases h1 : seen.contains k.id = true
      · rw [if_pos h1] at h
        exact Except.noConfusion h
      · rw [if_neg h1] at h
        by_cases h2 : (k.usage.contains "ops" && k.type != es256kType) = true
        · rw [if_pos h2] at h
          exact Except.noConfusion h
        · rw [if_neg h2] at h
          by_cases h3 : (!allowedKeyTypes.contains k.type) = true
          · rw [if_pos h3] at h
            exact Except.noConfusion h
          · rw [if_neg h3] at h
            by_cases h4 : k.usage.length = 0
            · rw [if_pos h4] at h
              exact Except.noConfusion h
            · rw [if_neg h4] at h
              by_cases h5 : k.usage.length > 3
              · rw [if_pos h5] at h
                exact Except.noConfusion h
              · rw [if_neg h5] at h
                by_cases h6 : (!k.usage.all fun u => allowedUsages.contains u) = true
                · rw [if_pos h6] at h
                  exact Except.noConfusion h
                · rw [if_neg h6] at h
                  obtain ⟨hnd, hdisj⟩ := ih (k.id :: seen) h
                  have hseen : seen.contains k.id = false := by
                    simpa using h1
                  have hknotin : k.id ∉ ks.map PublicKeyModel.id := by
                    intro hmem
                    have h0 := hdisj k.id hmem
                    simp at h0
                  constructor
                  · simp only [List.map_cons, List.nodup_cons]
                    exact ⟨hknotin, hnd⟩
                  · intro i hi
                    simp only [List.map_cons, List.mem_cons] at hi
                    rcases hi with hi | hi
                    · rw [hi]
                      exact hseen
                    · have h0 := hdisj i hi
                      simp only [List.contains_cons, Bool.or_eq_false_iff] at h0
                      exact h0.2

/-- C9: a document on which validateDocument succeeds has pairwise distinct public key
ids, and the document of the test file with two keys sharing the id key1 is rejected
with DocumentComposerPublicKeyIdDuplicated. -/
theorem c9_publicKeyIdUniqueness :
    (∀ doc, DocumentComposer.validateDocument doc = Except.ok () →
      ((doc.publicKeys.getD []).map PublicKeyModel.id).Nodup) ∧
    DocumentComposer.validateDocument duplicateIdDocument =
      Except.error ErrorCode.DocumentComposerPublicKeyIdDuplicated := by
  constructor
  · intro doc h
    unfold DocumentComposer.validateDocument at h
    cases hv : DocumentComposer.validatePublicKeys (doc.publicKeys.getD []) with
    | error e =>
      simp only [hv] at h
      exact Except.noConfusion h
    | ok u =>
      have hv' : DocumentComposer.validatePublicKeysAux (doc.publicKeys.getD []) [] =
          Except.ok () := by
        unfold DocumentComposer.validatePublicKeys at hv
        rw [hv]
      exact (validatePublicKeysAux_nodup (doc.publicKeys.getD []) [] hv').1
  · decide

theorem c9_publicKeyIdUniqueness_witness :
    ((okDocument.publicKeys.getD []).map PublicKeyModel.id).Nodup :=
  c9_publicKeyIdUniqueness.1 okDocument (by decide)
